import Mathlib

/-!
# Notes application (`notes-app.js`): model and verified properties

A shallow embedding of the note store, the list filter, the drag-and-drop
reorder, the link prompt and the image resize controller of `notes-app.js`.

Module-level variables of the script (`notes`, `activeNoteId`,
`draggedNoteId`, `selectedImage`, `isResizing`, ...) become fields of explicit
state records and every handler becomes a function from state to state.
Readings of the host (the clock, the confirm dialog, the search box, the
pointer position) are arguments of the handler that takes them.
-/

namespace NotesApp

/-! ## Data model -/

/-- A note record as stored in `notes` and serialised to local storage. -/
structure Note where
  id : Int
  title : String
  content : String
  updatedAt : String
deriving DecidableEq, Repr

/-- The two clock readings a handler takes: `Date.now()` and
`new Date().toISOString()`. -/
structure Clock where
  now : Int
  iso : String
deriving DecidableEq, Repr

/-- The module-level state of the note store together with the two editor
fields the store reads and writes (`noteTitle.value`, `noteBody.innerHTML`).
`none` stands for `null`. -/
structure AppState where
  notes : List Note
  activeNoteId : Option Int
  draggedNoteId : Option Int
  noteTitle : String
  noteBody : String
deriving DecidableEq, Repr

/-! ## Array primitives used by the script -/

/-- `Array.prototype.findIndex`: the first index whose element satisfies `p`;
`none` stands for the result `-1`. -/
def findIndex {α : Type} (p : α → Bool) : List α → Option Nat
  | [] => none
  | x :: xs => if p x then some 0 else (findIndex p xs).map (· + 1)

/-- `Array.prototype.splice(start, deleteCount, ...items)` for a non-negative
`start`: the removed elements, and the array afterwards. Both `start` and
`deleteCount` are clamped to the array as the language prescribes. -/
def splice {α : Type} (xs : List α) (start deleteCount : Nat) (items : List α) :
    List α × List α :=
  let s := min start xs.length
  let d := min deleteCount (xs.length - s)
  ((xs.drop s).take d, xs.take s ++ items ++ xs.drop (s + d))

/-- In-place update of the object returned by `Array.prototype.find`: the first
element satisfying `p` is replaced by its image under `f`. -/
def modifyFirst {α : Type} (p : α → Bool) (f : α → α) : List α → List α
  | [] => []
  | x :: xs => if p x then f x :: xs else x :: modifyFirst p f xs

/-! ## Note store -/

/-- `setActiveNote(id)`. The assignment to `activeNoteId` comes first; when no
note has the id, reading `note.title` throws and the editor fields stay as
they were. -/
def setActiveNote (s : AppState) (id : Int) : AppState :=
  let s1 := { s with activeNoteId := some id }
  match s1.notes.find? (fun n => n.id == id) with
  | none => s1
  | some note => { s1 with noteTitle := note.title, noteBody := note.content }

/-- The record `createNote` builds. -/
def newNote (c : Clock) : Note :=
  { id := c.now, title := "", content := "", updatedAt := c.iso }

/-- `createNote()`: `unshift` the new record, then make it active. -/
def createNote (s : AppState) (c : Clock) : AppState :=
  setActiveNote { s with notes := newNote c :: s.notes } (newNote c).id

/-- `deleteNote(id, event)`; `doDelete` is the answer of the confirm dialog. -/
def deleteNote (s : AppState) (id : Int) (doDelete : Bool) (c : Clock) : AppState :=
  if !doDelete then s
  else
    let s1 := { s with notes := s.notes.filter (fun n => n.id != id) }
    if s1.notes.length == 0 then createNote s1 c
    else if some id == s1.activeNoteId then
      match s1.notes with
      | first :: _ => setActiveNote s1 first.id
      | [] => s1
    else s1

/-- `updateActiveNote()`: a `null` or zero `activeNoteId` is falsy and returns
at once; otherwise the first note with that id takes the editor fields and a
fresh timestamp. -/
def updateActiveNote (s : AppState) (c : Clock) : AppState :=
  match s.activeNoteId with
  | none => s
  | some a =>
    if a == 0 then s
    else
      let edit : Note → Note := fun n =>
        { n with title := s.noteTitle, content := s.noteBody, updatedAt := c.iso }
      { s with notes := modifyFirst (fun n => n.id == a) edit s.notes }

/-! ## Drag and drop -/

/-- `handleDragStart`: remembers the id of the entry picked up. -/
def handleDragStart (s : AppState) (id : Int) : AppState :=
  { s with draggedNoteId := some id }

/-- `handleDrop` on the entry whose id is `targetId`. -/
def handleDrop (s : AppState) (targetId : Int) : AppState :=
  match s.draggedNoteId with
  | none => s
  | some dragged =>
    if dragged != targetId then
      match findIndex (fun n => n.id == dragged) s.notes,
            findIndex (fun n => n.id == targetId) s.notes with
      | some fromIndex, some toIndex =>
        let removed := splice s.notes fromIndex 1 []
        match removed.1 with
        | movedNote :: _ => { s with notes := (splice removed.2 toIndex 0 [movedNote]).2 }
        | [] => { s with notes := removed.2 }
      | _, _ => s
    else s

/-- The reorder of the store contract: pick up `fromId`, drop it on `toId`. -/
def reorder (s : AppState) (fromId toId : Int) : AppState :=
  handleDrop (handleDragStart s fromId) toId

/-- Script start-up. `stored` is the array parsed from local storage (empty when
the key is absent); `title0` and `body0` are what the page's two editor fields
hold before the script touches them. -/
def init (stored : List Note) (title0 body0 : String) (c : Clock) : AppState :=
  let s0 : AppState :=
    { notes := stored, activeNoteId := none, draggedNoteId := none,
      noteTitle := title0, noteBody := body0 }
  if s0.notes.length == 0 then createNote s0 c
  else
    match s0.notes with
    | first :: _ => setActiveNote s0 first.id
    | [] => s0

/-! ## List filter of `renderNotesList` -/

/-- Truthiness of a string value: only the empty string is falsy. -/
def truthy (s : String) : Bool := s != ""

/-- `String.prototype.includes` on character sequences: `q` occurs in `s` as a
contiguous block. -/
def includesChars : List Char → List Char → Bool
  | [], q => q.isEmpty
  | c :: cs, q => q.isPrefixOf (c :: cs) || includesChars cs q

/-- `s.includes(q)`. -/
def includes (s q : String) : Bool := includesChars s.data q.data

/-- The callback of `notes.filter` in `renderNotesList`. `toLowerCase` is the
host's `String.prototype.toLowerCase`; `searchQuery` is already lower-cased.
`a && b` yields `a` when `a` is falsy, so an empty title (or content) makes its
disjunct falsy without looking at the query. -/
def matchesQuery (toLowerCase : String → String) (searchQuery : String) (note : Note) : Bool :=
  (truthy note.title && includes (toLowerCase note.title) searchQuery) ||
    (truthy note.content && includes (toLowerCase note.content) searchQuery)

/-- `filteredNotes` of `renderNotesList`; `searchValue` is `searchInput.value`. -/
def filteredNotes (toLowerCase : String → String) (notes : List Note) (searchValue : String) :
    List Note :=
  let searchQuery := toLowerCase searchValue
  notes.filter (matchesQuery toLowerCase searchQuery)

/-- The match the contract words: the lower-cased title or the lower-cased
content contains the lower-cased query. -/
def containsQuery (toLowerCase : String → String) (q : String) (note : Note) : Bool :=
  decide ((toLowerCase q).data <:+: (toLowerCase note.title).data) ||
    decide ((toLowerCase q).data <:+: (toLowerCase note.content).data)

/-- Lower-casing restricted to the ASCII letters, an instance of the host
function used for concrete evaluations. -/
def asciiLower (s : String) : String := String.mk (s.data.map Char.toLower)

/-! ## Reachable states of the note store -/

/-- States the store can be in: start-up, followed by any sequence of the
handlers. `select` is a click on an entry of the rendered list, which holds
the notes passing the filter for the query typed at that time; `update` runs
after the user has put arbitrary text into the two editor fields. -/
inductive Reachable (toLowerCase : String → String) : AppState → Prop
  | start (stored : List Note) (title0 body0 : String) (c : Clock) :
      Reachable toLowerCase (init stored title0 body0 c)
  | create (s : AppState) (c : Clock) :
      Reachable toLowerCase s → Reachable toLowerCase (createNote s c)
  | delete (s : AppState) (id : Int) (doDelete : Bool) (c : Clock) :
      Reachable toLowerCase s → Reachable toLowerCase (deleteNote s id doDelete c)
  | select (s : AppState) (n : Note) (q : String) :
      Reachable toLowerCase s → n ∈ filteredNotes toLowerCase s.notes q →
      Reachable toLowerCase (setActiveNote s n.id)
  | dragStart (s : AppState) (id : Int) :
      Reachable toLowerCase s → Reachable toLowerCase (handleDragStart s id)
  | drop (s : AppState) (targetId : Int) :
      Reachable toLowerCase s → Reachable toLowerCase (handleDrop s targetId)
  | update (s : AppState) (t b : String) (c : Clock) :
      Reachable toLowerCase s →
      Reachable toLowerCase (updateActiveNote { s with noteTitle := t, noteBody := b } c)

/-- The active-note reference points into the collection. -/
def ActiveListed (s : AppState) : Prop :=
  ∃ n ∈ s.notes, s.activeNoteId = some n.id

/-! ## Link prompt -/

/-- Matches a literal pattern of lower-case letters and punctuation at the
start of the input under the `i` flag; the rest of the input on success. -/
def matchLiteralCI : List Char → List Char → Option (List Char)
  | [], cs => some cs
  | _ :: _, [] => none
  | p :: ps, c :: cs => if c.toLower == p then matchLiteralCI ps cs else none

/-- `/^https?:\/\//i.test(url)`: `http`, an optional `s`, then `://`. -/
def testHttp (url : String) : Bool :=
  match matchLiteralCI "http".data url.data with
  | none => false
  | some rest =>
    (match matchLiteralCI "s".data rest with
      | some rest2 => (matchLiteralCI "://".data rest2).isSome
      | none => false) ||
    (matchLiteralCI "://".data rest).isSome

/-- `/^mailto:/i.test(url)`. -/
def testMailto (url : String) : Bool :=
  (matchLiteralCI "mailto:".data url.data).isSome

/-- The URL the handler goes on with after the scheme check. -/
def linkUrl (url : String) : String :=
  if !testHttp url && !testMailto url then "https://" ++ url else url

/-- The template literal passed to `insertHTML`. -/
def anchorMarkup (url : String) : String :=
  "<a href=\"" ++ url ++ "\" target=\"_blank\">" ++ url ++ "</a>"

/-- The editing command the link handler issues. -/
inductive EditCommand where
  | insertHTML (markup : String)
  | createLink (url : String)
deriving DecidableEq, Repr

/-- The `mousedown` handler of the link button. `answer` is what `prompt`
returned (`none` for a cancelled dialog); `rangeCount` and `isCollapsed` are
read from the window selection. The result is the command issued, if any. -/
def linkHandler (answer : Option String) (rangeCount : Nat) (isCollapsed : Bool) :
    Option EditCommand :=
  match answer with
  | none => none
  | some u =>
    if truthy u then
      let url := linkUrl u
      if decide (rangeCount > 0) && isCollapsed then
        some (EditCommand.insertHTML (anchorMarkup url))
      else some (EditCommand.createLink url)
    else none

/-- Case-insensitive "starts with" as the contract words it: the first
characters of `u`, lower-cased, are the scheme `p`. -/
def startsWithCI (p u : String) : Bool :=
  decide (p.data.length ≤ u.data.length) &&
    ((u.data.take p.data.length).map Char.toLower == p.data)

/-- The value an HTML tokenizer gives the `href` attribute of markup that
begins `<a href="`: a double-quoted attribute value runs up to the next double
quote. (Character references are not decoded here.) -/
def hrefOf (markup : String) : Option String :=
  match matchLiteralCI "<a href=\"".data markup.data with
  | none => none
  | some rest => some (String.mk (rest.takeWhile (fun ch => ch != '"')))

/-! ## Image selection and resize controller -/

/-- The script variables of the controller and the inline style of the resize
handle. An image element is referred to by a number; `none` is `null`. -/
structure Controller where
  selectedImage : Option Nat
  isResizing : Bool
  startX : Int
  startWidth : Int
  maxWidth : Int
  handleDisplay : String
  handleLeft : Int
  handleTop : Int

/-- What the controller reads from and writes to the document: the images
inside `noteBody`, layout readings, and the class and inline size of each
image element. -/
structure Document where
  bodyImages : List Nat
  bodyClientWidth : Int
  clientWidth : Nat → Int
  rectRight : Nat → Int
  rectBottom : Nat → Int
  styleWidth : Nat → Option Int
  styleHeightAuto : Nat → Bool
  selectedClass : Nat → Bool

/-- Controller and document together. -/
structure Editor where
  ctl : Controller
  doc : Document

/-- `hideResizeHandle()`. -/
def hideResizeHandle (e : Editor) : Editor :=
  let doc1 : Document :=
    match e.ctl.selectedImage with
    | some img =>
      { e.doc with selectedClass := fun k => if k = img then false else e.doc.selectedClass k }
    | none => e.doc
  { ctl := { e.ctl with selectedImage := none, handleDisplay := "none" }, doc := doc1 }

/-- `showResizeHandle()`. -/
def showResizeHandle (e : Editor) : Editor :=
  match e.ctl.selectedImage with
  | none => hideResizeHandle e
  | some img =>
    if !(e.doc.bodyImages.contains img) then hideResizeHandle e
    else
      { ctl := { e.ctl with handleDisplay := "block",
                            handleLeft := e.doc.rectRight img - 10,
                            handleTop := e.doc.rectBottom img - 10 },
        doc := { e.doc with
                  selectedClass := fun k => if k = img then true else e.doc.selectedClass k } }

/-- The `click` handler of `noteBody`; `target` is `some img` when the element
clicked is an image and `none` otherwise. -/
def noteBodyClick (e : Editor) (target : Option Nat) : Editor :=
  match target with
  | some img =>
    let doc1 : Document :=
      match e.ctl.selectedImage with
      | some old =>
        if old ≠ img then
          { e.doc with selectedClass := fun k => if k = old then false else e.doc.selectedClass k }
        else e.doc
      | none => e.doc
    showResizeHandle { ctl := { e.ctl with selectedImage := some img }, doc := doc1 }
  | none => hideResizeHandle e

/-- The `mousedown` handler of the resize handle. With no image selected the
read of `selectedImage.clientWidth` throws after the first two assignments. -/
def resizeMouseDown (e : Editor) (clientX : Int) : Editor :=
  let ctl1 : Controller := { e.ctl with isResizing := true, startX := clientX }
  match e.ctl.selectedImage with
  | none => { e with ctl := ctl1 }
  | some img =>
    { e with ctl := { ctl1 with startWidth := e.doc.clientWidth img,
                                maxWidth := e.doc.bodyClientWidth - 20 } }

/-- The width computed by the `mousemove` handler. -/
def resizedWidth (startWidth startX maxWidth clientX : Int) : Int :=
  let deltaX := clientX - startX
  let newWidth := startWidth + deltaX
  let newWidth := if newWidth > maxWidth then maxWidth else newWidth
  let newWidth := if newWidth < 50 then 50 else newWidth
  newWidth

/-- The document `mousemove` handler. -/
def resizeMouseMove (e : Editor) (clientX : Int) : Editor :=
  match e.ctl.isResizing, e.ctl.selectedImage with
  | true, some img =>
    let newWidth := resizedWidth e.ctl.startWidth e.ctl.startX e.ctl.maxWidth clientX
    showResizeHandle
      { e with doc := { e.doc with
          styleWidth := fun k => if k = img then some newWidth else e.doc.styleWidth k,
          styleHeightAuto := fun k => if k = img then true else e.doc.styleHeightAuto k } }
  | _, _ => e

/-- The callback of the mutation observer on `noteBody`. -/
def mutationObserved (e : Editor) : Editor :=
  match e.ctl.selectedImage with
  | some img =>
    if !(e.doc.bodyImages.contains img) then hideResizeHandle e
    else showResizeHandle e
  | none => e

/-! ## Sample data -/

/-- Three notes with ids 1, 2, 3. -/
def threeNotes : List Note :=
  [⟨1, "alpha", "", "t1"⟩, ⟨2, "beta", "", "t2"⟩, ⟨3, "gamma", "", "t3"⟩]

/-- A store holding `threeNotes`, the first one active. -/
def threeState : AppState :=
  { notes := threeNotes, activeNoteId := some 1, draggedNoteId := none,
    noteTitle := "alpha", noteBody := "" }

/-- A clock reading. -/
def sampleClock : Clock := { now := 1700000000000, iso := "2023-11-14T22:13:20.000Z" }

/-- An editor with two images in the body and nothing selected. -/
def sampleEditor : Editor :=
  { ctl := { selectedImage := none, isResizing := false, startX := 0, startWidth := 0,
             maxWidth := 0, handleDisplay := "none", handleLeft := 0, handleTop := 0 },
    doc := { bodyImages := [0, 1], bodyClientWidth := 620,
             clientWidth := fun _ => 300, rectRight := fun _ => 400,
             rectBottom := fun _ => 200, styleWidth := fun _ => none,
             styleHeightAuto := fun _ => false, selectedClass := fun _ => false } }

/-- The document of `sampleEditor` after image 0 has been removed from the body. -/
def sampleDocWithoutFirst : Document :=
  { sampleEditor.doc with bodyImages := [1] }

/-! ## Facts about the array primitives -/

theorem findIndex_append_first {α : Type} (p : α → Bool) (l1 l2 : List α) (x : α)
    (h1 : ∀ y ∈ l1, p y = false) (hx : p x = true) :
    findIndex p (l1 ++ x :: l2) = some l1.length := by
  induction l1 with
  | nil => simp [findIndex, hx]
  | cons y ys ih =>
    have hy : p y = false := h1 y (by simp)
    have hys : ∀ z ∈ ys, p z = false := fun z hz => h1 z (by simp [hz])
    simp [findIndex, hy, ih hys]

theorem findIndex_split {α : Type} (p : α → Bool) :
    ∀ (l : List α) (i : Nat), findIndex p l = some i →
      ∃ l1 x l2, l = l1 ++ x :: l2 ∧ l1.length = i ∧ p x = true ∧ ∀ y ∈ l1, p y = false
  | [], i, h => by simp [findIndex] at h
  | x :: xs, i, h => by
    by_cases hx : p x = true
    · simp [findIndex, hx] at h
      exact ⟨[], x, xs, rfl, by simpa using h, hx, by simp⟩
    · have hx' : p x = false := by simpa using hx
      simp only [findIndex, hx', Bool.false_eq_true, if_false, Option.map_eq_some'] at h
      obtain ⟨k, hk, rfl⟩ := h
      obtain ⟨l1, y, l2, hl, hlen, hy, hall⟩ := findIndex_split p xs k hk
      refine ⟨x :: l1, y, l2, by simp [hl], by simp [hlen], hy, ?_⟩
      intro z hz
      rcases List.mem_cons.mp hz with rfl | hz
      · exact hx'
      · exact hall z hz

theorem splice_remove_one {α : Type} (l1 l2 : List α) (x : α) :
    splice (l1 ++ x :: l2) l1.length 1 [] = ([x], l1 ++ l2) := by
  simp [splice]

theorem splice_insert_one {α : Type} (l1 l2 : List α) (m : α) :
    splice (l1 ++ l2) l1.length 0 [m] = ([], l1 ++ m :: l2) := by
  simp [splice]

theorem findIndex_two_split {α : Type} (p q : α → Bool) (l : List α) (i j : Nat)
    (hi : findIndex p l = some i) (hj : findIndex q l = some j) (hij : i < j) :
    ∃ l1 x l2 y l3, l = l1 ++ x :: (l2 ++ y :: l3) ∧ l1.length = i ∧
      l1.length + 1 + l2.length = j ∧ p x = true ∧ q y = true ∧
      (∀ z ∈ l1, p z = false) ∧ (∀ z ∈ l1 ++ x :: l2, q z = false) := by
  obtain ⟨l1, x, r, hl, hlen, hx, hall⟩ := findIndex_split p l i hi
  obtain ⟨m1, y, m2, hm, hmlen, hy, hmall⟩ := findIndex_split q l j hj
  have heq : l1 ++ x :: r = m1 ++ y :: m2 := by rw [← hl, ← hm]
  rcases List.append_eq_append_iff.mp heq with ⟨a', ha1, ha2⟩ | ⟨c', hc1, _⟩
  · cases a' with
    | nil =>
      simp at ha1
      subst ha1
      omega
    | cons w l2 =>
      simp at ha2
      obtain ⟨rfl, rfl⟩ := ha2
      subst ha1
      refine ⟨l1, x, l2, y, m2, hl, hlen, ?_, hx, hy, hall, hmall⟩
      simp at hmlen
      omega
  · have : l1.length = m1.length + c'.length := by rw [hc1]; simp
    omega

theorem handleDrop_forward (s : AppState) (a b : Int) (l1 l2 l3 : List Note) (x y : Note)
    (hd : s.draggedNoteId = some a) (hab : a ≠ b)
    (hn : s.notes = l1 ++ x :: (l2 ++ y :: l3))
    (hx : x.id = a) (hy : y.id = b)
    (h1 : ∀ z ∈ l1, z.id ≠ a) (h2 : ∀ z ∈ l1 ++ x :: l2, z.id ≠ b) :
    handleDrop s b = { s with notes := l1 ++ (l2 ++ y :: x :: l3) } := by
  have hfa : findIndex (fun n => n.id == a) s.notes = some l1.length := by
    rw [hn]
    exact findIndex_append_first _ _ _ _ (by simpa using h1) (by simp [hx])
  have hfb : findIndex (fun n => n.id == b) s.notes = some (l1 ++ x :: l2).length := by
    rw [hn]
    have := findIndex_append_first (fun n => n.id == b) (l1 ++ x :: l2) l3 y
      (by simpa using h2) (by simp [hy])
    simpa using this
  have hins : splice (l1 ++ (l2 ++ y :: l3)) (l1 ++ x :: l2).length 0 [x]
      = ([], l1 ++ (l2 ++ y :: x :: l3)) := by
    have := splice_insert_one (l1 ++ (l2 ++ [y])) l3 x
    simpa [Nat.add_assoc, Nat.add_comm] using this
  have hne : (a != b) = true := by simpa using hab
  unfold handleDrop
  simp only [hd, hne, if_true, hfa, hfb]
  rw [hn, splice_remove_one]
  simp only [hins]

theorem handleDrop_backward (s : AppState) (a b : Int) (l1 l2 l3 : List Note) (x y : Note)
    (hd : s.draggedNoteId = some a) (hab : a ≠ b)
    (hn : s.notes = l1 ++ y :: (l2 ++ x :: l3))
    (hx : x.id = a) (hy : y.id = b)
    (h1 : ∀ z ∈ l1, z.id ≠ b) (h2 : ∀ z ∈ l1 ++ y :: l2, z.id ≠ a) :
    handleDrop s b = { s with notes := l1 ++ x :: y :: (l2 ++ l3) } := by
  have hfb : findIndex (fun n => n.id == b) s.notes = some l1.length := by
    rw [hn]
    exact findIndex_append_first _ _ _ _ (by simpa using h1) (by simp [hy])
  have hfa : findIndex (fun n => n.id == a) s.notes = some (l1 ++ y :: l2).length := by
    rw [hn]
    have := findIndex_append_first (fun n => n.id == a) (l1 ++ y :: l2) l3 x
      (by simpa using h2) (by simp [hx])
    simpa using this
  have hrem : splice (l1 ++ y :: (l2 ++ x :: l3)) (l1 ++ y :: l2).length 1 []
      = ([x], l1 ++ y :: (l2 ++ l3)) := by
    have := splice_remove_one (l1 ++ y :: l2) l3 x
    simpa using this
  have hne : (a != b) = true := by simpa using hab
  unfold handleDrop
  simp only [hd, hne, if_true, hfa, hfb]
  rw [hn, hrem]
  simp only [splice_insert_one]

theorem eraseIdx_append_cons {α : Type} (l1 r : List α) (x : α) :
    (l1 ++ x :: r).eraseIdx l1.length = l1 ++ r := by
  induction l1 with
  | nil => simp
  | cons y ys ih => simp [ih]

theorem insertIdx_append_length {α : Type} (l1 r : List α) (m : α) :
    (l1 ++ r).insertIdx l1.length m = l1 ++ m :: r := by
  induction l1 with
  | nil => simp
  | cons y ys ih => simp [ih]

theorem getElem?_append_cons {α : Type} (l1 r : List α) (x : α) :
    (l1 ++ x :: r)[l1.length]? = some x := by
  induction l1 with
  | nil => simp
  | cons y ys ih => simpa using ih

theorem setActiveNote_notes (s : AppState) (id : Int) :
    (setActiveNote s id).notes = s.notes := by
  unfold setActiveNote
  dsimp only
  split <;> rfl

theorem setActiveNote_activeNoteId (s : AppState) (id : Int) :
    (setActiveNote s id).activeNoteId = some id := by
  unfold setActiveNote
  dsimp only
  split <;> rfl

theorem createNote_notes (s : AppState) (c : Clock) :
    (createNote s c).notes = newNote c :: s.notes := by
  simp [createNote, setActiveNote_notes]

/-! ## Note store: deletion -/

/-- C1: a confirmed `deleteNote(id)` never leaves the collection empty, and
deleting the only note of a collection leaves exactly one note, the freshly
created one, whose title and content are empty. -/
theorem deleteNote_confirmed_nonempty (s : AppState) (id : Int) (c : Clock) :
    (deleteNote s id true c).notes ≠ [] ∧
      ∀ n : Note,
        (deleteNote { s with notes := [n] } n.id true c).notes = [newNote c] ∧
          (newNote c).id = c.now ∧ (newNote c).title = "" ∧ (newNote c).content = "" := by
  constructor
  · unfold deleteNote
    simp only [Bool.not_true, Bool.false_eq_true, if_false]
    cases hf : s.notes.filter (fun n => n.id != id) with
    | nil => simp [createNote_notes]
    | cons x xs =>
      dsimp only
      split_ifs <;> simp_all [setActiveNote_notes]
  · intro n
    refine ⟨?_, rfl, rfl, rfl⟩
    simp [deleteNote, createNote_notes]

/-! ## Drag and drop: the relocation -/

theorem move_forward_facts {α : Type} (l1 l2 l3 : List α) (x y : α) :
    (l1 ++ x :: (l2 ++ y :: l3))[l1.length]? = some x ∧
    l1 ++ (l2 ++ y :: x :: l3) =
      ((l1 ++ x :: (l2 ++ y :: l3)).eraseIdx l1.length).insertIdx
        (l1.length + 1 + l2.length) x ∧
    (l1 ++ (l2 ++ y :: x :: l3))[l1.length + 1 + l2.length]? = some x ∧
    (l1 ++ (l2 ++ y :: x :: l3)).eraseIdx (l1.length + 1 + l2.length) =
      (l1 ++ x :: (l2 ++ y :: l3)).eraseIdx l1.length := by
  have hlen : (l1 ++ (l2 ++ [y])).length = l1.length + 1 + l2.length := by
    simp
    omega
  have e1 : l1 ++ (l2 ++ y :: l3) = (l1 ++ (l2 ++ [y])) ++ l3 := by simp
  have e2 : l1 ++ (l2 ++ y :: x :: l3) = (l1 ++ (l2 ++ [y])) ++ x :: l3 := by simp
  refine ⟨getElem?_append_cons _ _ _, ?_, ?_, ?_⟩
  · rw [eraseIdx_append_cons, e1, ← hlen, insertIdx_append_length, e2]
  · rw [e2, ← hlen, getElem?_append_cons]
  · rw [eraseIdx_append_cons, e2, ← hlen, eraseIdx_append_cons, e1]

theorem move_backward_facts {α : Type} (l1 l2 l3 : List α) (x y : α) :
    (l1 ++ y :: (l2 ++ x :: l3))[l1.length + 1 + l2.length]? = some x ∧
    l1 ++ x :: y :: (l2 ++ l3) =
      ((l1 ++ y :: (l2 ++ x :: l3)).eraseIdx (l1.length + 1 + l2.length)).insertIdx
        l1.length x ∧
    (l1 ++ x :: y :: (l2 ++ l3))[l1.length]? = some x ∧
    (l1 ++ x :: y :: (l2 ++ l3)).eraseIdx l1.length =
      (l1 ++ y :: (l2 ++ x :: l3)).eraseIdx (l1.length + 1 + l2.length) := by
  have hlen : (l1 ++ y :: l2).length = l1.length + 1 + l2.length := by
    simp
    omega
  have e1 : l1 ++ y :: (l2 ++ x :: l3) = (l1 ++ y :: l2) ++ x :: l3 := by simp
  have e2 : (l1 ++ y :: l2) ++ l3 = l1 ++ y :: (l2 ++ l3) := by simp
  refine ⟨?_, ?_, getElem?_append_cons _ _ _, ?_⟩
  · rw [e1, ← hlen, getElem?_append_cons]
  · rw [e1, ← hlen, eraseIdx_append_cons, e2, insertIdx_append_length]
  · rw [eraseIdx_append_cons, e1, ← hlen, eraseIdx_append_cons, e2]

theorem findIndex_ne_of_pred_ne {α : Type} (p q : α → Bool) (l : List α) (i j : Nat)
    (hpq : ∀ z, p z = true → q z = false)
    (hi : findIndex p l = some i) (hj : findIndex q l = some j) : i ≠ j := by
  obtain ⟨l1, x, r, hl, hlen, hx, _⟩ := findIndex_split p l i hi
  obtain ⟨m1, y, m2, hm, hmlen, hy, _⟩ := findIndex_split q l j hj
  intro hij
  have h1 : l[i]? = some x := by rw [hl, ← hlen]; exact getElem?_append_cons _ _ _
  have h2 : l[i]? = some y := by rw [hij, hm, ← hmlen]; exact getElem?_append_cons _ _ _
  have hxy : x = y := by
    rw [h1] at h2
    exact Option.some.inj h2
  rw [← hxy, hpq x hx] at hy
  exact Bool.false_ne_true hy

theorem handleDrop_unchanged (s : AppState) (b : Int) :
    (s.draggedNoteId = none → handleDrop s b = s) ∧
    (s.draggedNoteId = some b → handleDrop s b = s) ∧
    (∀ a, s.draggedNoteId = some a →
        findIndex (fun n => n.id == a) s.notes = none ∨
          findIndex (fun n => n.id == b) s.notes = none →
        handleDrop s b = s) := by
  refine ⟨?_, ?_, ?_⟩
  · intro h
    simp [handleDrop, h]
  · intro h
    simp [handleDrop, h]
  · intro a hd h
    unfold handleDrop
    simp only [hd]
    split_ifs
    · rcases h with h | h
      · rw [h]
      · rw [h]
        cases findIndex (fun n => n.id == a) s.notes <;> rfl
    · rfl

/-- C2: dropping the dragged note `a` on the entry `b`. When the ids differ and
are found at indices `i` and `j`, the collection becomes the original with the
element at `i` removed and re-inserted at `j`: the moved note sits at index `j`
and the other notes keep their order. With no drag in progress, with `a = b`,
or with either id not found, the state is unchanged. -/
theorem handleDrop_relocates (s : AppState) (b : Int) :
    (∀ a i j, s.draggedNoteId = some a → a ≠ b →
        findIndex (fun n => n.id == a) s.notes = some i →
        findIndex (fun n => n.id == b) s.notes = some j →
        ∃ m, s.notes[i]? = some m ∧
          handleDrop s b = { s with notes := (s.notes.eraseIdx i).insertIdx j m } ∧
          (handleDrop s b).notes[j]? = some m ∧
          (handleDrop s b).notes.eraseIdx j = s.notes.eraseIdx i) ∧
    (s.draggedNoteId = none → handleDrop s b = s) ∧
    (s.draggedNoteId = some b → handleDrop s b = s) ∧
    (∀ a, s.draggedNoteId = some a →
        findIndex (fun n => n.id == a) s.notes = none ∨
          findIndex (fun n => n.id == b) s.notes = none →
        handleDrop s b = s) := by
  refine ⟨?_, handleDrop_unchanged s b⟩
  intro a i j hd hab hi hj
  have hij : i ≠ j := findIndex_ne_of_pred_ne _ _ _ i j
    (fun z hz => by
      have : z.id = a := by simpa using hz
      simpa [this] using hab) hi hj
  rcases Nat.lt_or_gt_of_ne hij with hlt | hgt
  · obtain ⟨l1, x, l2, y, l3, hn, rfl, rfl, hx, hy, h1, h2⟩ :=
      findIndex_two_split _ _ _ i j hi hj hlt
    have hfw := handleDrop_forward s a b l1 l2 l3 x y hd hab hn (by simpa using hx)
      (by simpa using hy) (by simpa using h1) (by simpa using h2)
    obtain ⟨f1, f2, f3, f4⟩ := move_forward_facts l1 l2 l3 x y
    refine ⟨x, ?_, ?_, ?_, ?_⟩
    · rw [hn]; exact f1
    · rw [hfw, hn, ← f2]
    · rw [hfw]; exact f3
    · rw [hfw, hn]; exact f4
  · obtain ⟨l1, y, l2, x, l3, hn, rfl, rfl, hy, hx, h1, h2⟩ :=
      findIndex_two_split _ _ _ j i hj hi hgt
    have hbw := handleDrop_backward s a b l1 l2 l3 x y hd hab hn (by simpa using hx)
      (by simpa using hy) (by simpa using h1) (by simpa using h2)
    obtain ⟨f1, f2, f3, f4⟩ := move_backward_facts l1 l2 l3 x y
    refine ⟨x, ?_, ?_, ?_, ?_⟩
    · rw [hn]; exact f1
    · rw [hbw, hn, ← f2]
    · rw [hbw]; exact f3
    · rw [hbw, hn]; exact f4

/-! ## Reorder: where the moved note lands -/

theorem reorder_forward (s : AppState) (a b : Int) (l1 l2 l3 : List Note) (x y : Note)
    (hab : a ≠ b) (hn : s.notes = l1 ++ x :: (l2 ++ y :: l3))
    (hx : x.id = a) (hy : y.id = b)
    (h1 : ∀ z ∈ l1, z.id ≠ a) (h2 : ∀ z ∈ l1 ++ x :: l2, z.id ≠ b) :
    reorder s a b =
      { s with draggedNoteId := some a, notes := l1 ++ (l2 ++ y :: x :: l3) } := by
  unfold reorder
  rw [handleDrop_forward (handleDragStart s a) a b l1 l2 l3 x y rfl hab hn hx hy h1 h2]
  rfl

theorem reorder_backward (s : AppState) (a b : Int) (l1 l2 l3 : List Note) (x y : Note)
    (hab : a ≠ b) (hn : s.notes = l1 ++ y :: (l2 ++ x :: l3))
    (hx : x.id = a) (hy : y.id = b)
    (h1 : ∀ z ∈ l1, z.id ≠ b) (h2 : ∀ z ∈ l1 ++ y :: l2, z.id ≠ a) :
    reorder s a b =
      { s with draggedNoteId := some a, notes := l1 ++ x :: y :: (l2 ++ l3) } := by
  unfold reorder
  rw [handleDrop_backward (handleDragStart s a) a b l1 l2 l3 x y rfl hab hn hx hy h1 h2]
  rfl

theorem nodup_ids_middle (l1 l2 r : List Note) (x : Note)
    (h : ((l1 ++ x :: (l2 ++ r)).map (fun n => n.id)).Nodup) :
    ∀ z ∈ l2, z.id ≠ x.id := by
  intro z hz heq
  rw [List.map_append, List.nodup_append] at h
  obtain ⟨_, hx, _⟩ := h
  rw [List.map_cons, List.nodup_cons] at hx
  apply hx.1
  exact List.mem_map.mpr ⟨z, List.mem_append_left _ hz, heq⟩

/-- C3 (amended): with distinct ids and `fromId`, `toId` found at indices `i`
and `j`, the reorder puts the record of `fromId` at index `j`, the index
`toId` had. Moved towards the front (`j < i`) it sits immediately before the
record of `toId`; moved towards the back (`i < j`) it sits immediately after. -/
theorem reorder_lands_at_target_index (s : AppState) (fromId toId : Int) (i j : Nat)
    (hnd : (s.notes.map (fun n => n.id)).Nodup) (hne : fromId ≠ toId)
    (hi : findIndex (fun n => n.id == fromId) s.notes = some i)
    (hj : findIndex (fun n => n.id == toId) s.notes = some j) :
    findIndex (fun n => n.id == fromId) (reorder s fromId toId).notes = some j ∧
    (j < i →
      findIndex (fun n => n.id == toId) (reorder s fromId toId).notes = some (j + 1)) ∧
    (i < j →
      ∃ k, findIndex (fun n => n.id == toId) (reorder s fromId toId).notes = some k ∧
        k + 1 = j) := by
  have hij : i ≠ j := findIndex_ne_of_pred_ne _ _ _ i j
    (fun z hz => by
      have : z.id = fromId := by simpa using hz
      simpa [this] using hne) hi hj
  rcases Nat.lt_or_gt_of_ne hij with hlt | hgt
  · obtain ⟨l1, x, l2, y, l3, hn, rfl, rfl, hx, hy, h1, h2⟩ :=
      findIndex_two_split _ _ _ i j hi hj hlt
    have hx' : x.id = fromId := by simpa using hx
    have hy' : y.id = toId := by simpa using hy
    have h1' : ∀ z ∈ l1, z.id ≠ fromId := by simpa using h1
    have h2' : ∀ z ∈ l1 ++ x :: l2, z.id ≠ toId := by simpa using h2
    have hmid : ∀ z ∈ l2, z.id ≠ fromId := by
      rw [hn] at hnd
      simpa [hx'] using nodup_ids_middle l1 l2 (y :: l3) x hnd
    rw [reorder_forward s fromId toId l1 l2 l3 x y hne hn hx' hy' h1' h2']
    refine ⟨?_, fun h => absurd h (by omega), fun _ => ⟨l1.length + l2.length, ?_, by omega⟩⟩
    · have := findIndex_append_first (fun n => n.id == fromId) (l1 ++ (l2 ++ [y])) l3 x
        (by
          intro z hz
          simp only [List.mem_append, List.mem_singleton] at hz
          rcases hz with hz | hz | hz
          · simpa using h1' z hz
          · simpa using hmid z hz
          · subst hz
            simpa [hy'] using hne.symm) hx
      have hlen : (l1 ++ (l2 ++ [y])).length = l1.length + 1 + l2.length := by
        simp
        omega
      rw [hlen] at this
      simpa using this
    · have := findIndex_append_first (fun n => n.id == toId) (l1 ++ l2) (x :: l3) y
        (by
          intro z hz
          simp only [List.mem_append] at hz
          rcases hz with hz | hz
          · simpa using h2' z (by simp [hz])
          · simpa using h2' z (by simp [hz])) hy
      simpa using this
  · obtain ⟨l1, y, l2, x, l3, hn, rfl, rfl, hy, hx, h1, h2⟩ :=
      findIndex_two_split _ _ _ j i hj hi hgt
    have hx' : x.id = fromId := by simpa using hx
    have hy' : y.id = toId := by simpa using hy
    have h1' : ∀ z ∈ l1, z.id ≠ toId := by simpa using h1
    have h2' : ∀ z ∈ l1 ++ y :: l2, z.id ≠ fromId := by simpa using h2
    rw [reorder_backward s fromId toId l1 l2 l3 x y hne hn hx' hy' h1' h2']
    refine ⟨?_, fun _ => ?_, fun h => absurd h (by omega)⟩
    · exact findIndex_append_first (fun n => n.id == fromId) l1 (y :: (l2 ++ l3)) x
        (by
          intro z hz
          simpa using h2' z (by simp [hz])) hx
    · have := findIndex_append_first (fun n => n.id == toId) (l1 ++ [x]) (l2 ++ l3) y
        (by
          intro z hz
          simp only [List.mem_append, List.mem_singleton] at hz
          rcases hz with hz | hz
          · simpa using h1' z hz
          · subst hz
            simpa [hx'] using hne) hy
      simpa using this

/-! ## Reorder there and back -/

theorem shift_eq_iff_nil {α : Type} (l2 r : List α) (x : α) (hx : ∀ z ∈ l2, z ≠ x) :
    l2 ++ x :: r = x :: (l2 ++ r) ↔ l2 = [] := by
  constructor
  · intro h
    cases l2 with
    | nil => rfl
    | cons w l2 =>
      simp only [List.cons_append, List.cons.injEq] at h
      exact absurd h.1 (hx w (by simp))
  · rintro rfl
    rfl

/-- C10 (amended): with distinct ids and `a`, `b` found at indices `i` and
`j`, reordering `a` onto `b` and then `b` onto `a` gives back the original
sequence exactly when the two notes are adjacent. -/
theorem reorder_roundtrip_iff_adjacent (s : AppState) (a b : Int) (i j : Nat)
    (hnd : (s.notes.map (fun n => n.id)).Nodup) (hne : a ≠ b)
    (hi : findIndex (fun n => n.id == a) s.notes = some i)
    (hj : findIndex (fun n => n.id == b) s.notes = some j) :
    (reorder (reorder s a b) b a).notes = s.notes ↔ (i + 1 = j ∨ j + 1 = i) := by
  have hij : i ≠ j := findIndex_ne_of_pred_ne _ _ _ i j
    (fun z hz => by
      have : z.id = a := by simpa using hz
      simpa [this] using hne) hi hj
  rcases Nat.lt_or_gt_of_ne hij with hlt | hgt
  · obtain ⟨l1, x, l2, y, l3, hn, rfl, rfl, hx, hy, h1, h2⟩ :=
      findIndex_two_split _ _ _ i j hi hj hlt
    have hx' : x.id = a := by simpa using hx
    have hy' : y.id = b := by simpa using hy
    have h1' : ∀ z ∈ l1, z.id ≠ a := by simpa using h1
    have h2' : ∀ z ∈ l1 ++ x :: l2, z.id ≠ b := by simpa using h2
    have hmid : ∀ z ∈ l2, z.id ≠ a := by
      rw [hn] at hnd
      simpa [hx'] using nodup_ids_middle l1 l2 (y :: l3) x hnd
    have hfirst := reorder_forward s a b l1 l2 l3 x y hne hn hx' hy' h1' h2'
    have hsecond := reorder_forward (reorder s a b) b a (l1 ++ l2) [] l3 y x hne.symm
      (by rw [hfirst]; simp) hy' hx'
      (by
        intro z hz
        simp only [List.mem_append] at hz
        rcases hz with hz | hz
        · exact h2' z (by simp [hz])
        · exact h2' z (by simp [hz]))
      (by
        intro z hz
        simp only [List.mem_append, List.mem_cons, List.mem_nil_iff, or_false] at hz
        rcases hz with (hz | hz) | hz
        · exact h1' z hz
        · exact hmid z hz
        · subst hz
          rw [hy']
          exact hne.symm)
    rw [hsecond, hn]
    have hshift := shift_eq_iff_nil l2 (y :: l3) x
      (fun z hz h => hmid z hz (by rw [h, hx']))
    have hcancel : (l1 ++ l2) ++ ([] ++ x :: y :: l3) = l1 ++ x :: (l2 ++ y :: l3) ↔
        l2 ++ x :: (y :: l3) = x :: (l2 ++ y :: l3) := by
      rw [List.append_assoc, List.nil_append]
      exact List.append_right_inj l1
    simp only [hcancel, hshift]
    constructor
    · rintro rfl
      left
      simp
    · intro h
      rcases h with h | h
      · apply List.eq_nil_of_length_eq_zero
        omega
      · omega
  · obtain ⟨l1, y, l2, x, l3, hn, rfl, rfl, hy, hx, h1, h2⟩ :=
      findIndex_two_split _ _ _ j i hj hi hgt
    have hx' : x.id = a := by simpa using hx
    have hy' : y.id = b := by simpa using hy
    have h1' : ∀ z ∈ l1, z.id ≠ b := by simpa using h1
    have h2' : ∀ z ∈ l1 ++ y :: l2, z.id ≠ a := by simpa using h2
    have hfirst := reorder_backward s a b l1 l2 l3 x y hne hn hx' hy' h1' h2'
    have hsecond := reorder_backward (reorder s a b) b a l1 [] (l2 ++ l3) y x hne.symm
      (by rw [hfirst]; simp) hy' hx'
      (by
        intro z hz
        exact h2' z (by simp [hz]))
      (by
        intro z hz
        simp only [List.mem_append, List.mem_cons, List.mem_nil_iff, or_false] at hz
        rcases hz with hz | hz
        · exact h1' z hz
        · subst hz
          rw [hx']
          exact hne)
    rw [hsecond, hn]
    have hshift := shift_eq_iff_nil l2 l3 x
      (fun z hz h => h2' z (by simp [hz]) (by rw [h, hx']))
    have hcancel : l1 ++ y :: x :: ([] ++ (l2 ++ l3)) = l1 ++ y :: (l2 ++ x :: l3) ↔
        l2 ++ x :: l3 = x :: (l2 ++ l3) := by
      rw [List.nil_append, List.append_right_inj l1, List.cons.injEq]
      constructor
      · intro h
        exact h.2.symm
      · intro h
        exact ⟨rfl, h.symm⟩
    simp only [hcancel, hshift]
    constructor
    · rintro rfl
      right
      simp
    · intro h
      rcases h with h | h
      · omega
      · apply List.eq_nil_of_length_eq_zero
        omega

/-! ## List filter -/

theorem includesChars_iff_block (s q : List Char) :
    includesChars s q = true ↔ q <:+: s := by
  induction s with
  | nil => simp [includesChars]
  | cons c cs ih =>
    rw [includesChars, Bool.or_eq_true, ih, List.infix_cons_iff, List.isPrefixOf_iff_prefix]

theorem includes_empty_left (q : String) (hq : q ≠ "") : includes "" q = false := by
  have hdata : q.data ≠ [] := by
    intro h
    apply hq
    exact String.ext h
  cases hd : q.data with
  | nil => exact absurd hd hdata
  | cons c cs => simp [includes, includesChars, hd]

theorem matchesQuery_newNote (toLowerCase : String → String) (q : String) (c : Clock) :
    matchesQuery toLowerCase q (newNote c) = false := by
  simp [matchesQuery, truthy, newNote]

/-- C4: evaluation at the failing input. For the empty query (indeed for any
query) the filter of `renderNotesList` drops a note whose title and content are
both empty: a collection holding only the note `createNote` builds is listed as
empty, and the note `createNote` has just added is never in the list. -/
theorem empty_query_drops_blank_note (toLowerCase : String → String) (c : Clock)
    (s : AppState) :
    filteredNotes toLowerCase [newNote c] "" = [] ∧
      ∀ q, newNote c ∉ filteredNotes toLowerCase (createNote s c).notes q := by
  constructor
  · simp [filteredNotes, matchesQuery_newNote]
  · intro q h
    simp [filteredNotes, matchesQuery_newNote] at h

theorem guarded_includes (toLowerCase : String → String)
    (hlow : ∀ s, toLowerCase s = "" ↔ s = "") (f lq : String) (hlq : lq ≠ "") :
    (truthy f && includes (toLowerCase f) lq) =
      decide (lq.data <:+: (toLowerCase f).data) := by
  by_cases hf : f = ""
  · subst hf
    have h0 : toLowerCase "" = "" := (hlow "").mpr rfl
    have hinc := includes_empty_left lq hlq
    have hinf : ¬ lq.data <:+: ("" : String).data := by
      intro h
      have := (includesChars_iff_block ("" : String).data lq.data).mpr h
      rw [includes] at hinc
      rw [hinc] at this
      exact Bool.false_ne_true this
    rw [h0, hinc, Bool.and_false]
    exact (decide_eq_false hinf).symm
  · have ht : truthy f = true := by simpa [truthy] using hf
    rw [ht, Bool.true_and, includes]
    by_cases h : lq.data <:+: (toLowerCase f).data
    · rw [(includesChars_iff_block _ _).mpr h, decide_eq_true h]
    · have : includesChars (toLowerCase f).data lq.data = false := by
        cases hc : includesChars (toLowerCase f).data lq.data with
        | false => rfl
        | true => exact absurd ((includesChars_iff_block _ _).mp hc) h
      rw [this, decide_eq_false h]

/-- C5: for a non-empty query the list computed by `renderNotesList` is the
collection filtered, in order, by "lower-cased title or lower-cased content
contains the lower-cased query". The host's lower-casing enters through the
one fact used: it yields the empty string for the empty string only. -/
theorem filteredNotes_eq_containsQuery (toLowerCase : String → String)
    (hlow : ∀ s, toLowerCase s = "" ↔ s = "") (notes : List Note) (q : String)
    (hq : q ≠ "") :
    filteredNotes toLowerCase notes q = notes.filter (containsQuery toLowerCase q) ∧
      (filteredNotes toLowerCase notes q).Sublist notes := by
  have hlq : toLowerCase q ≠ "" := fun h => hq ((hlow q).mp h)
  have hfun : matchesQuery toLowerCase (toLowerCase q) = containsQuery toLowerCase q := by
    funext n
    simp only [matchesQuery, containsQuery, guarded_includes toLowerCase hlow _ _ hlq]
  constructor
  · simp only [filteredNotes, hfun]
  · simp only [filteredNotes]
    exact List.filter_sublist _

/-! ## Image controller -/

theorem hideResizeHandle_styleWidth (e : Editor) :
    (hideResizeHandle e).doc.styleWidth = e.doc.styleWidth := by
  unfold hideResizeHandle
  cases e.ctl.selectedImage <;> rfl

theorem showResizeHandle_styleWidth (e : Editor) :
    (showResizeHandle e).doc.styleWidth = e.doc.styleWidth := by
  unfold showResizeHandle
  cases e.ctl.selectedImage with
  | none => exact hideResizeHandle_styleWidth e
  | some img =>
    dsimp only
    split_ifs
    · exact hideResizeHandle_styleWidth e
    · rfl

theorem resizedWidth_eq (W X0 M X : Int) :
    resizedWidth W X0 M X = max 50 (min M (W + (X - X0))) := by
  unfold resizedWidth
  dsimp only
  split_ifs <;> omega

/-- C6: while resizing with an image selected, the `mousemove` handler sets the
image's width to `max 50 (min M (W + D))`, where `W` and `M` are the start
width and cached maximum and `D` is the pointer's X minus its X at drag start;
`W` and `M` are what `mousedown` on the handle captured. -/
theorem mousemove_sets_clamped_width (e : Editor) (img : Nat) (W M X0 X : Int) :
    (resizeMouseMove
        { e with ctl := { e.ctl with selectedImage := some img, isResizing := true,
                                     startX := X0, startWidth := W, maxWidth := M } }
        X).doc.styleWidth img = some (max 50 (min M (W + (X - X0)))) ∧
    (resizeMouseMove
        (resizeMouseDown { e with ctl := { e.ctl with selectedImage := some img } } X0)
        X).doc.styleWidth img =
      some (max 50 (min (e.doc.bodyClientWidth - 20) (e.doc.clientWidth img + (X - X0)))) := by
  constructor
  · simp [resizeMouseMove, showResizeHandle_styleWidth, resizedWidth_eq]
  · simp [resizeMouseMove, resizeMouseDown, showResizeHandle_styleWidth, resizedWidth_eq]

/-- C9: clicking an image of the editor body selects it and shows the handle.
If the document then changes so that the image is no longer in the body, the
mutation callback clears the selection and hides the handle; if the image is
still in the body, it stays selected with the handle shown. The same holds in
any later state in which that image is still the selected one. -/
theorem mutation_tracks_selected_image (e : Editor) (img : Nat) (doc1 : Document)
    (hin : img ∈ e.doc.bodyImages) :
    ((noteBodyClick e (some img)).ctl.selectedImage = some img ∧
      (noteBodyClick e (some img)).ctl.handleDisplay = "block") ∧
    (img ∉ doc1.bodyImages →
      (mutationObserved { ctl := (noteBodyClick e (some img)).ctl, doc := doc1 }).ctl.selectedImage
          = none ∧
      (mutationObserved { ctl := (noteBodyClick e (some img)).ctl, doc := doc1 }).ctl.handleDisplay
          = "none") ∧
    (img ∈ doc1.bodyImages →
      (mutationObserved { ctl := (noteBodyClick e (some img)).ctl, doc := doc1 }).ctl.selectedImage
          = some img ∧
      (mutationObserved { ctl := (noteBodyClick e (some img)).ctl, doc := doc1 }).ctl.handleDisplay
          = "block") ∧
    (∀ e2 : Editor, e2.ctl.selectedImage = some img →
      (img ∉ e2.doc.bodyImages →
        (mutationObserved e2).ctl.selectedImage = none ∧
          (mutationObserved e2).ctl.handleDisplay = "none") ∧
      (img ∈ e2.doc.bodyImages →
        (mutationObserved e2).ctl.selectedImage = some img ∧
          (mutationObserved e2).ctl.handleDisplay = "block")) := by
  have hclick : (noteBodyClick e (some img)).ctl.selectedImage = some img ∧
      (noteBodyClick e (some img)).ctl.handleDisplay = "block" := by
    cases hsel : e.ctl.selectedImage with
    | none => simp [noteBodyClick, showResizeHandle, hsel, hin]
    | some old =>
      by_cases ho : old = img
      · simp [noteBodyClick, showResizeHandle, hsel, hin, ho]
      · simp [noteBodyClick, showResizeHandle, hsel, hin, ho]
  refine ⟨hclick, ?_, ?_, ?_⟩
  · intro hout
    simp [mutationObserved, hclick.1, hout, hideResizeHandle]
  · intro hstill
    simp [mutationObserved, hclick.1, hstill, showResizeHandle]
  · intro e2 hsel
    constructor
    · intro hout
      simp [mutationObserved, hsel, hout, hideResizeHandle]
    · intro hstill
      simp [mutationObserved, hsel, hstill, showResizeHandle]

/-! ## The active note always exists -/

theorem activeListed_setActiveNote (s : AppState) (n : Note) (h : n ∈ s.notes) :
    ActiveListed (setActiveNote s n.id) :=
  ⟨n, by rw [setActiveNote_notes]; exact h, setActiveNote_activeNoteId s n.id⟩

theorem activeListed_createNote (s : AppState) (c : Clock) :
    ActiveListed (createNote s c) := by
  unfold createNote
  exact activeListed_setActiveNote _ (newNote c) (by simp)

theorem activeListed_init (stored : List Note) (t b : String) (c : Clock) :
    ActiveListed (init stored t b c) := by
  unfold init
  cases stored with
  | nil => exact activeListed_createNote _ c
  | cons first rest =>
    simp only [List.length_cons, beq_iff_eq, Nat.add_one_ne_zero, if_false]
    exact activeListed_setActiveNote _ first (by simp)

theorem activeListed_deleteNote (s : AppState) (id : Int) (d : Bool) (c : Clock)
    (h : ActiveListed s) : ActiveListed (deleteNote s id d c) := by
  unfold deleteNote
  cases d with
  | false => simpa using h
  | true =>
    simp only [Bool.not_true, Bool.false_eq_true, if_false]
    cases hf : s.notes.filter (fun n => n.id != id) with
    | nil => simpa using activeListed_createNote _ c
    | cons first rest =>
      simp only [List.length_cons, beq_iff_eq, Nat.add_one_ne_zero, if_false]
      split_ifs with hact
      · exact activeListed_setActiveNote _ first (by simp)
      · obtain ⟨n, hn, hnact⟩ := h
        refine ⟨n, ?_, hnact⟩
        have hne : n.id ≠ id := by
          intro heq
          apply hact
          simp [hnact, heq]
        have : n ∈ s.notes.filter (fun n => n.id != id) := by
          simp [List.mem_filter, hn, hne]
        simpa [hf] using this

theorem handleDrop_mem (s : AppState) (b : Int) :
    (handleDrop s b).activeNoteId = s.activeNoteId ∧
      ∀ n, n ∈ (handleDrop s b).notes ↔ n ∈ s.notes := by
  obtain ⟨hnone, hsame, hmiss⟩ := handleDrop_unchanged s b
  cases hd : s.draggedNoteId with
  | none => rw [hnone hd]; simp
  | some a =>
    by_cases hab : a = b
    · rw [hsame (by rw [hd, hab])]; simp
    · cases hi : findIndex (fun n => n.id == a) s.notes with
      | none => rw [hmiss a hd (Or.inl hi)]; simp
      | some i =>
        cases hj : findIndex (fun n => n.id == b) s.notes with
        | none => rw [hmiss a hd (Or.inr hj)]; simp
        | some j =>
          have hij : i ≠ j := findIndex_ne_of_pred_ne _ _ _ i j
            (fun z hz => by
              have : z.id = a := by simpa using hz
              simpa [this] using hab) hi hj
          rcases Nat.lt_or_gt_of_ne hij with hlt | hgt
          · obtain ⟨l1, x, l2, y, l3, hn, rfl, rfl, hx, hy, h1, h2⟩ :=
              findIndex_two_split _ _ _ i j hi hj hlt
            rw [handleDrop_forward s a b l1 l2 l3 x y hd hab hn (by simpa using hx)
              (by simpa using hy) (by simpa using h1) (by simpa using h2)]
            refine ⟨rfl, fun n => ?_⟩
            rw [hn]
            simp only [List.mem_append, List.mem_cons]
            tauto
          · obtain ⟨l1, y, l2, x, l3, hn, rfl, rfl, hy, hx, h1, h2⟩ :=
              findIndex_two_split _ _ _ j i hj hi hgt
            rw [handleDrop_backward s a b l1 l2 l3 x y hd hab hn (by simpa using hx)
              (by simpa using hy) (by simpa using h1) (by simpa using h2)]
            refine ⟨rfl, fun n => ?_⟩
            rw [hn]
            simp only [List.mem_append, List.mem_cons]
            tauto

theorem activeListed_handleDrop (s : AppState) (b : Int) (h : ActiveListed s) :
    ActiveListed (handleDrop s b) := by
  obtain ⟨n, hn, hact⟩ := h
  obtain ⟨ha, hm⟩ := handleDrop_mem s b
  exact ⟨n, (hm n).mpr hn, by rw [ha]; exact hact⟩

theorem modifyFirst_keeps_id (p : Note → Bool) (f : Note → Note)
    (hf : ∀ n, (f n).id = n.id) (l : List Note) (a : Int) :
    (∃ n ∈ l, a = n.id) → ∃ n ∈ modifyFirst p f l, a = n.id := by
  induction l with
  | nil => simp
  | cons x xs ih =>
    rintro ⟨n, hn, rfl⟩
    unfold modifyFirst
    rcases List.mem_cons.mp hn with rfl | hn
    · split_ifs
      · exact ⟨f n, by simp, (hf n).symm⟩
      · exact ⟨n, by simp, rfl⟩
    · split_ifs
      · exact ⟨n, by simp [hn], rfl⟩
      · obtain ⟨m, hm, hmid⟩ := ih ⟨n, hn, rfl⟩
        exact ⟨m, by simp [hm], hmid⟩

theorem activeListed_updateActiveNote (s : AppState) (t b : String) (c : Clock)
    (h : ActiveListed s) :
    ActiveListed (updateActiveNote { s with noteTitle := t, noteBody := b } c) := by
  obtain ⟨n, hn, hact⟩ := h
  unfold updateActiveNote
  simp only [hact]
  split_ifs
  · exact ⟨n, hn, rfl⟩
  · obtain ⟨m, hm, hmid⟩ := modifyFirst_keeps_id (fun k => k.id == n.id)
      (fun k => { k with title := t, content := b, updatedAt := c.iso })
      (fun _ => rfl) s.notes n.id ⟨n, hn, rfl⟩
    exact ⟨m, hm, by simp only [hact, hmid]⟩

theorem reachable_activeListed (toLowerCase : String → String) (s : AppState)
    (h : Reachable toLowerCase s) : ActiveListed s := by
  induction h with
  | start stored t b c => exact activeListed_init stored t b c
  | create s c _ _ => exact activeListed_createNote s c
  | delete s id d c _ ih => exact activeListed_deleteNote s id d c ih
  | select s n q _ hmem _ =>
    exact activeListed_setActiveNote s n (List.mem_of_mem_filter hmem)
  | dragStart s id _ ih => exact ih
  | drop s b _ ih => exact activeListed_handleDrop s b ih
  | update s t b c _ ih => exact activeListed_updateActiveNote s t b c ih

theorem deleteNote_active_reselects (s : AppState) (id : Int) (c : Clock)
    (hact : s.activeNoteId = some id) :
    (deleteNote s id true c).activeNoteId =
      (deleteNote s id true c).notes.head?.map (fun n => n.id) := by
  unfold deleteNote
  simp only [Bool.not_true, Bool.false_eq_true, if_false]
  cases hf : s.notes.filter (fun n => n.id != id) with
  | nil =>
    simp [createNote, setActiveNote_notes, setActiveNote_activeNoteId]
  | cons first rest =>
    simp [hact, setActiveNote_notes, setActiveNote_activeNoteId]

/-- C7: in every state reachable from start-up through `createNote`,
`deleteNote` (confirmed or declined, any id), a click on a listed note, drag
start, `handleDrop` and `updateActiveNote`, the collection is non-empty and
`activeNoteId` is the id of one of its notes; and deleting the active note
makes the first note of the resulting collection (the first remaining note, or
the blank note just created) the active one. -/
theorem reachable_has_active_note (toLowerCase : String → String) (s : AppState)
    (h : Reachable toLowerCase s) :
    s.notes ≠ [] ∧ (∃ n ∈ s.notes, s.activeNoteId = some n.id) ∧
      ∀ (id : Int) (c : Clock), s.activeNoteId = some id →
        (deleteNote s id true c).activeNoteId =
          (deleteNote s id true c).notes.head?.map (fun n => n.id) := by
  have hinv := reachable_activeListed toLowerCase s h
  refine ⟨?_, hinv, fun id c hact => deleteNote_active_reselects s id c hact⟩
  obtain ⟨n, hn, _⟩ := hinv
  exact List.ne_nil_of_mem hn

/-! ## Link prompt -/

theorem matchLiteralCI_append (p1 p2 : List Char) :
    ∀ cs, matchLiteralCI (p1 ++ p2) cs = (matchLiteralCI p1 cs).bind (matchLiteralCI p2) := by
  induction p1 with
  | nil =>
    intro cs
    simp [matchLiteralCI]
  | cons p ps ih =>
    intro cs
    cases cs with
    | nil => simp [matchLiteralCI]
    | cons c cs =>
      simp only [List.cons_append, matchLiteralCI]
      split_ifs
      · exact ih cs
      · rfl

theorem matchLiteralCI_isSome (p : List Char) :
    ∀ cs, (matchLiteralCI p cs).isSome =
      (decide (p.length ≤ cs.length) && ((cs.take p.length).map Char.toLower == p)) := by
  induction p with
  | nil =>
    intro cs
    simp [matchLiteralCI]
  | cons p ps ih =>
    intro cs
    cases cs with
    | nil => simp [matchLiteralCI]
    | cons c cs =>
      simp only [matchLiteralCI, List.length_cons, List.take_succ_cons, List.map_cons]
      by_cases hc : c.toLower = p
      · simp [hc, ih cs]
      · simp [hc]

theorem testMailto_eq (u : String) : testMailto u = startsWithCI "mailto:" u := by
  unfold testMailto startsWithCI
  exact matchLiteralCI_isSome _ _

theorem testHttp_eq (u : String) :
    testHttp u = (startsWithCI "http://" u || startsWithCI "https://" u) := by
  have e1 : ("http://" : String).data = ("http" : String).data ++ ("://" : String).data := rfl
  have e2 : ("https://" : String).data =
      ("http" : String).data ++ (("s" : String).data ++ ("://" : String).data) := rfl
  have hfun : matchLiteralCI (("s" : String).data ++ ("://" : String).data) =
      fun r => (matchLiteralCI ("s" : String).data r).bind
        (matchLiteralCI ("://" : String).data) :=
    funext (matchLiteralCI_append _ _)
  unfold testHttp startsWithCI
  rw [← matchLiteralCI_isSome, ← matchLiteralCI_isSome, e1, e2, matchLiteralCI_append,
    matchLiteralCI_append, hfun]
  cases matchLiteralCI ("http" : String).data u.data with
  | none => rfl
  | some rest =>
    simp only [Option.some_bind]
    cases matchLiteralCI ("s" : String).data rest with
    | none => simp
    | some rest2 => simp [Bool.or_comm]

/-- C8: the URL the link handler uses is the answer unchanged when it starts,
case-insensitively, with `http://`, `https://` or `mailto:`, and `https://`
followed by the answer otherwise; for `example.com` the anchor inserted at a
collapsed caret has href and text `https://example.com`. Evaluation at the
failing input: for the answer `a"b` the URL is spliced into the markup
unescaped, and the href attribute of the inserted anchor is `https://a`, not
the URL `https://a"b`. -/
theorem link_url_and_markup :
    (∀ u : String,
      linkUrl u =
        if startsWithCI "http://" u || startsWithCI "https://" u || startsWithCI "mailto:" u
        then u else "https://" ++ u) ∧
    (∀ u : String, u ≠ "" →
      linkHandler (some u) 1 true = some (EditCommand.insertHTML (anchorMarkup (linkUrl u)))) ∧
    (linkHandler (some "example.com") 1 true =
        some (EditCommand.insertHTML
          "<a href=\"https://example.com\" target=\"_blank\">https://example.com</a>") ∧
      hrefOf (anchorMarkup (linkUrl "example.com")) = some "https://example.com") ∧
    (linkUrl "a\"b" = "https://a\"b" ∧
      linkHandler (some "a\"b") 1 true =
        some (EditCommand.insertHTML
          "<a href=\"https://a\"b\" target=\"_blank\">https://a\"b</a>") ∧
      hrefOf (anchorMarkup (linkUrl "a\"b")) = some "https://a") := by
  refine ⟨?_, ?_, ⟨by decide, by decide⟩, ⟨by decide, by decide, by decide⟩⟩
  · intro u
    unfold linkUrl
    rw [testHttp_eq, testMailto_eq]
    cases startsWithCI "http://" u <;> cases startsWithCI "https://" u <;>
      cases startsWithCI "mailto:" u <;> rfl
  · intro u hu
    have ht : truthy u = true := by simpa [truthy] using hu
    simp [linkHandler, ht]

/-! ## Concrete instances -/

theorem asciiLower_eq_empty_iff (s : String) : asciiLower s = "" ↔ s = "" := by
  constructor
  · intro h
    have hd : (asciiLower s).data = [] := by rw [h]
    simp only [asciiLower, List.map_eq_nil_iff] at hd
    exact String.ext hd
  · rintro rfl
    rfl

/-- Instance of C2: in `threeNotes`, note 1 dragged onto note 3 is removed from
index 0 and re-inserted at index 2. -/
theorem handleDrop_relocates_witness :
    ∃ m, (handleDragStart threeState 1).notes[0]? = some m ∧
      handleDrop (handleDragStart threeState 1) 3 =
        { handleDragStart threeState 1 with
          notes := ((handleDragStart threeState 1).notes.eraseIdx 0).insertIdx 2 m } ∧
      (handleDrop (handleDragStart threeState 1) 3).notes[2]? = some m ∧
      (handleDrop (handleDragStart threeState 1) 3).notes.eraseIdx 2 =
        (handleDragStart threeState 1).notes.eraseIdx 0 :=
  (handleDrop_relocates (handleDragStart threeState 1) 3).1 1 0 2 rfl (by decide)
    (by decide) (by decide)

/-- C3 as stated fails: in `threeNotes`, reordering note 1 onto note 2 leaves
note 1 at index 1 and note 2 at index 0, so note 1 is not immediately before
note 2. -/
theorem reorder_before_target_counterexample :
    ¬ ∀ (s : AppState) (fromId toId : Int),
        (s.notes.map (fun n => n.id)).Nodup → fromId ≠ toId →
        fromId ∈ s.notes.map (fun n => n.id) → toId ∈ s.notes.map (fun n => n.id) →
        ∃ k, findIndex (fun n => n.id == fromId) (reorder s fromId toId).notes = some k ∧
          findIndex (fun n => n.id == toId) (reorder s fromId toId).notes = some (k + 1) := by
  intro h
  obtain ⟨k, _, h2⟩ := h threeState 1 2 (by decide) (by decide) (by decide) (by decide)
  have e2 : findIndex (fun n => n.id == 2) (reorder threeState 1 2).notes = some 0 := by
    decide
  rw [e2] at h2
  simp at h2

/-- Instance of C3 (amended): note 1 of `threeNotes` reordered onto note 3
lands at index 2. -/
theorem reorder_lands_at_target_index_witness :
    findIndex (fun n => n.id == 1) (reorder threeState 1 3).notes = some 2 :=
  (reorder_lands_at_target_index threeState 1 3 0 2 (by decide) (by decide) (by decide)
    (by decide)).1

/-- Instance of C5: the query `ET` over `threeNotes`. -/
theorem filteredNotes_eq_containsQuery_witness :
    filteredNotes asciiLower threeNotes "ET" =
        threeNotes.filter (containsQuery asciiLower "ET") ∧
      (filteredNotes asciiLower threeNotes "ET").Sublist threeNotes :=
  filteredNotes_eq_containsQuery asciiLower asciiLower_eq_empty_iff threeNotes "ET"
    (by decide)

/-- Instance of C7: start with empty storage, then delete the only note. -/
theorem reachable_has_active_note_witness :
    (deleteNote (init [] "" "" sampleClock) sampleClock.now true sampleClock).notes ≠ [] :=
  (reachable_has_active_note asciiLower
    (deleteNote (init [] "" "" sampleClock) sampleClock.now true sampleClock)
    (Reachable.delete _ _ _ _ (Reachable.start [] "" "" sampleClock))).1

/-- Instance of C9: image 0 of `sampleEditor` is clicked and then removed. -/
theorem mutation_tracks_selected_image_witness :
    (mutationObserved
        { ctl := (noteBodyClick sampleEditor (some 0)).ctl,
          doc := sampleDocWithoutFirst }).ctl.selectedImage = none ∧
      (mutationObserved
        { ctl := (noteBodyClick sampleEditor (some 0)).ctl,
          doc := sampleDocWithoutFirst }).ctl.handleDisplay = "none" :=
  (mutation_tracks_selected_image sampleEditor 0 sampleDocWithoutFirst (by decide)).2.1
    (by decide)

/-- C10 as stated fails: in `threeNotes`, reordering note 1 onto note 3 and
then note 3 onto note 1 gives the order 2, 1, 3. -/
theorem reorder_roundtrip_counterexample :
    ¬ ∀ (s : AppState) (a b : Int),
        (s.notes.map (fun n => n.id)).Nodup → a ≠ b →
        a ∈ s.notes.map (fun n => n.id) → b ∈ s.notes.map (fun n => n.id) →
        (reorder (reorder s a b) b a).notes = s.notes := by
  intro h
  have h1 := h threeState 1 3 (by decide) (by decide) (by decide) (by decide)
  have h2 : (reorder (reorder threeState 1 3) 3 1).notes.map (fun n => n.id) = [2, 1, 3] := by
    decide
  rw [h1] at h2
  exact absurd h2 (by decide)

/-- Instance of C10 (amended): notes 1 and 2 of `threeNotes` are adjacent, and
reordering 1 onto 2 and then 2 onto 1 restores the order. -/
theorem reorder_roundtrip_iff_adjacent_witness :
    (reorder (reorder threeState 1 2) 2 1).notes = threeState.notes :=
  (reorder_roundtrip_iff_adjacent threeState 1 2 0 1 (by decide) (by decide) (by decide)
    (by decide)).mpr (Or.inl rfl)

end NotesApp
